import Mathlib

/-!
# Verification of the SimpleConvNet training program (HW#2.py)

A shallow embedding of the convolutional-network program in `src/HW#2/HW#2.py`.
The network orchestration (`SimpleConvNet.__init__`, `predict`, `loss`,
`accuracy`, `gradient`, `load_params`) is translated directly from the source.
The layer library (`common.layers`: Convolution, Relu, Pooling, Affine,
SoftmaxWithLoss) and the optimizer (`common.optimizer`: Adam) are imported by
the source but not part of the repository snapshot; those definitions are
modelled from the specification (sections 4.1-4.5 and 4.7) and carry a
doc comment saying so.

Numeric arrays are embedded as nested lists over `ℚ` (the program's float
arithmetic is exact rational arithmetic here, except the transcendental
`exp`/`log` used by the loss layer and `sqrt` used by Adam, which are taken as
explicit function parameters so that every definition stays computable).
-/

/-! ## Shape derivation at construction (HW#2.py lines 36-41)

Python `//` is floor division, which on `ℤ` is `Int.fdiv`. -/

/-- Convolution output height, line 36:
`(input_dim[1] - filter_size + 2 * filter_pad) // filter_stride + 1`. -/
def conv_output_height (input_h filter_size pad stride : ℤ) : ℤ :=
  (input_h - filter_size + 2 * pad).fdiv stride + 1

/-- Convolution output width, line 37. -/
def conv_output_width (input_w filter_size pad stride : ℤ) : ℤ :=
  (input_w - filter_size + 2 * pad).fdiv stride + 1

/-- Pooling output height, line 38, with the fixed pool_height=2, pool_stride=2. -/
def pool_output_height (conv_h : ℤ) : ℤ :=
  (conv_h - 2).fdiv 2 + 1

/-- Pooling output width, line 39, with the fixed pool_width=2, pool_stride=2. -/
def pool_output_width (conv_w : ℤ) : ℤ :=
  (conv_w - 2).fdiv 2 + 1

/-- Flattened feature count feeding Affine1, line 41:
`filter_num * pool_output_height * pool_output_width`. -/
def pool_output_size (filter_num pool_h pool_w : ℤ) : ℤ :=
  filter_num * pool_h * pool_w

/-- Claim C2: with input_dim=(1,28,28), filter_num=30, filter_size=5, pad=0,
stride=1 and the fixed 2x2 stride-2 pooling, the derived convolution output is
24x24, the pooled output is 12x12, and the flattened feature count
`pool_output_size` equals 30*12*12 = 4320. -/
theorem C2_shape_derivation :
    conv_output_height 28 5 0 1 = 24 ∧
    conv_output_width 28 5 0 1 = 24 ∧
    pool_output_height (conv_output_height 28 5 0 1) = 12 ∧
    pool_output_width (conv_output_width 28 5 0 1) = 12 ∧
    pool_output_size 30 (pool_output_height (conv_output_height 28 5 0 1))
      (pool_output_width (conv_output_width 28 5 0 1)) = 4320 := by
  refine ⟨by decide, by decide, by decide, by decide, by decide⟩

/-- Claim C3, counterexample: a configuration whose derived convolution height
is non-integer ((28-5)/2 = 11.5) is not rejected; construction computes the
floor-truncated value 12 and raises nothing (the source has no ShapeError and
no validation of any derived dimension).  Likewise a configuration with a
non-positive derived dimension (input 1, filter 5) yields -3 without failing. -/
theorem C3_counterexample :
    conv_output_height 28 5 0 2 = 12 ∧ ¬ ((2 : ℤ) ∣ (28 - 5 + 2 * 0)) ∧
    conv_output_height 1 5 0 1 = -3 := by
  refine ⟨by decide, by decide, by decide⟩

/-- Claim C3, amended: network construction performs no validation at all.  A
non-integer quotient `(H + 2*pad - filter_size)/stride` is silently truncated
by floor division (the computed height `q` satisfies the floor bounds
`stride*(q-1) ≤ H + 2*pad - filter_size < stride*q`), and non-positive derived
dimensions are produced without any error; no ShapeError exists. -/
theorem C3_amended_silent_truncation (h f p s : ℤ) (hs : 0 < s) :
    s * (conv_output_height h f p s - 1) ≤ h - f + 2 * p ∧
    h - f + 2 * p < s * conv_output_height h f p s := by
  unfold conv_output_height
  rw [Int.fdiv_eq_ediv _ (Int.le_of_lt hs)]
  constructor
  · have := Int.emod_nonneg (h - f + 2 * p) (ne_of_gt hs)
    have hdm := Int.ediv_add_emod (h - f + 2 * p) s
    nlinarith [hdm, this]
  · have := Int.emod_lt_of_pos (h - f + 2 * p) hs
    have hdm := Int.ediv_add_emod (h - f + 2 * p) s
    nlinarith [hdm, this]

/-- Witness for C3_amended_silent_truncation at the concrete truncating
configuration H=28, filter=5, pad=0, stride=2. -/
theorem C3_amended_witness :
    (0 : ℤ) < 2 ∧
    (2 * (conv_output_height 28 5 0 2 - 1) ≤ 28 - 5 + 2 * 0 ∧
      28 - 5 + 2 * 0 < 2 * conv_output_height 28 5 0 2) :=
  ⟨by decide, C3_amended_silent_truncation 28 5 0 2 (by decide)⟩

/-! ## Tensor primitives

Numeric arrays are nested lists over `ℚ`; a 4-D tensor is indexed
(batch, channel, row, column) like the numpy arrays of the source. -/

abbrev Vec := List ℚ
abbrev Mat := List (List ℚ)
abbrev Tensor3 := List Mat
abbrev Tensor4 := List Tensor3

/-- Entry of a matrix, out-of-range entries read as 0 (only in-range entries
are ever produced by forward/backward index arithmetic). -/
def get2 (m : Mat) (i j : ℕ) : ℚ :=
  (m.getD i []).getD j 0

/-- Entry of a 4-D tensor of an arbitrary element type, with default `d`. -/
def get4 (t : List (List (List (List α)))) (d : α) (n c i j : ℕ) : α :=
  (((t.getD n []).getD c []).getD i []).getD j d

/-- Dot product of two vectors. -/
def dotQ (a b : Vec) : ℚ :=
  (List.zipWith (fun x y => x * y) a b).sum

/-- Matrix product (rows of `a` against columns of `b`). -/
def matMul (a b : Mat) : Mat :=
  a.map (fun r => b.transpose.map (fun c => dotQ r c))

/-- First index of the maximum of a list (numpy `argmax`: ties resolved by the
earliest occurrence in scan order; 0 on the empty list). -/
def argmaxAux : List ℚ → ℕ → ℕ → ℚ → ℕ
  | [], _, bi, _ => bi
  | q :: rest, i, bi, bv =>
    if bv < q then argmaxAux rest (i + 1) i q
    else argmaxAux rest (i + 1) bi bv

/-- numpy `argmax` over a vector. -/
def argmaxQ : Vec → ℕ
  | [] => 0
  | q :: rest => argmaxAux rest 1 0 q

/-- numpy `max` over a vector (0 on the empty list). -/
def maxQ : Vec → ℚ
  | [] => 0
  | q :: rest => rest.foldl max q

/-- Dynamically-shaped tensor: the layers of the source are shape-generic via
numpy; in the network the data flowing between layers is either 2-D
(batch, features) or 4-D (batch, channel, row, column). -/
inductive DT (α : Type) where
  | t2 : List (List α) → DT α
  | t4 : List (List (List (List α))) → DT α
deriving DecidableEq

/-- Elementwise map over a dynamically-shaped tensor. -/
def DT.map (f : α → β) : DT α → DT β
  | .t2 m => .t2 (m.map (fun r => r.map f))
  | .t4 t => .t4 (t.map (fun s => s.map (fun c => c.map (fun r => r.map f))))

/-- Elementwise zip of two dynamically-shaped tensors of the same rank; on a
rank mismatch (which in the source would be a numpy broadcast error, a state
the network never reaches) the second argument is returned unchanged. -/
def DT.zip (f : α → α → α) : DT α → DT α → DT α
  | .t2 a, .t2 b => .t2 (List.zipWith (List.zipWith f) a b)
  | .t4 a, .t4 b =>
      .t4 (List.zipWith (List.zipWith (List.zipWith (List.zipWith f))) a b)
  | _, b => b

/-- View a dynamic tensor as a matrix (the branch the loss/accuracy code takes;
a 4-D tensor here would be a numpy shape error in the source). -/
def DT.asMat : DT ℚ → Mat
  | .t2 m => m
  | .t4 _ => []

/-- Label tensor: either integer class indices (1-D) or one-hot rows (2-D);
the source branches on `t.ndim`. -/
inductive Target where
  | ints : List ℕ → Target
  | onehot : Mat → Target
deriving DecidableEq

/-- `t if t.ndim == 1 else np.argmax(t, axis=1)` (HW#2.py line 92). -/
def Target.labels : Target → List ℕ
  | .ints l => l
  | .onehot m => m.map argmaxQ

/-! ## Convolution layer -/

/-- Padded read of one channel: `pad` zero rows/columns on each border; reads
past the bottom/right edge also give 0 via the list defaults. -/
def padGet (ch : Mat) (pad i j : ℕ) : ℚ :=
  if i < pad ∨ j < pad then 0 else get2 ch (i - pad) (j - pad)

/-- Modelled from the spec: im2col patch extraction (spec section 4.1 and the
glossary; the implementation lives in the absent module `common.util`).  Every
stride-spaced kernel_h x kernel_w patch of the zero-padded input, across
channels, becomes one row; rows are ordered (batch, out_row, out_col) and each
row concatenates (channel, kernel_row, kernel_col) entries in row-major
order. -/
def im2col (stride pad kh kw oH oW : ℕ) (x : Tensor4) : Mat :=
  (x.map (fun sample =>
    ((List.range oH).map (fun oh =>
      (List.range oW).map (fun ow =>
        (sample.map (fun ch =>
          ((List.range kh).map (fun i =>
            (List.range kw).map (fun j =>
              padGet ch pad (oh * stride + i) (ow * stride + j)))).flatten)).flatten))).flatten)).flatten

/-- Modelled from the spec: col2im, the additive scatter inverse of `im2col`
(spec section 4.1, backward): each column-matrix entry is routed back to the
padded input position it was read from, overlapping windows accumulating
additively, and the padding border is cropped away. -/
def col2im (stride pad kh kw oH oW N C H W : ℕ) (dcol : Mat) : Tensor4 :=
  (List.range N).map (fun n =>
    (List.range C).map (fun c =>
      (List.range H).map (fun ih =>
        (List.range W).map (fun iw =>
          ((List.range oH).map (fun oh =>
            ((List.range oW).map (fun ow =>
              ((List.range kh).map (fun i =>
                ((List.range kw).map (fun j =>
                  if oh * stride + i = ih + pad ∧ ow * stride + j = iw + pad then
                    get2 dcol (n * (oH * oW) + oh * oW + ow)
                      (c * (kh * kw) + i * kw + j)
                  else 0)).sum)).sum)).sum)).sum))))

/-- Reshape the (batch*oH*oW, out_channels) product matrix into the output
tensor (batch, out_channels, oH, oW): numpy
`out.reshape(N, oH, oW, -1).transpose(0, 3, 1, 2)`. -/
def reshapeConvOut (FN oH oW N : ℕ) (m : Mat) : Tensor4 :=
  (List.range N).map (fun n =>
    (List.range FN).map (fun f =>
      (List.range oH).map (fun oh =>
        (List.range oW).map (fun ow =>
          get2 m (n * (oH * oW) + oh * oW + ow) f))))

/-- Reshape a flat vector into a (c, h, w) tensor, row-major. -/
def reshape3 (c h w : ℕ) (v : Vec) : Tensor3 :=
  (List.range c).map (fun ci =>
    (List.range h).map (fun i =>
      (List.range w).map (fun j =>
        v.getD (ci * (h * w) + i * w + j) 0)))

/-- Modelled from the spec: the Convolution layer of the absent module
`common.layers` (spec section 4.1).  Owns filter weights
(out_channels, in_channels, kernel_h, kernel_w) and bias (out_channels,);
caches the im2col patch matrix, the flattened transposed weight matrix and the
input shape for backward; stores dW/db on the instance for the network to
collect. -/
structure Convolution where
  W : Tensor4
  b : Vec
  stride : ℕ
  pad : ℕ
  x_shape : List ℕ := []
  col : Mat := []
  col_W : Mat := []
  dW : Tensor4 := []
  db : Vec := []
deriving DecidableEq

/-- Modelled from the spec: Convolution forward (spec section 4.1): pad,
extract patches (`im2col`), multiply by the flattened transposed weight
matrix, add bias, reshape to (batch, out_channels, oH, oW); caches the patch
matrix, the weight matrix and the input shape. -/
def Convolution.forward (c : Convolution) (x : Tensor4) : Convolution × Tensor4 :=
  let FN := c.W.length
  let kh := ((c.W.getD 0 []).getD 0 []).length
  let kw := (((c.W.getD 0 []).getD 0 []).getD 0 []).length
  let H := ((x.getD 0 []).getD 0 []).length
  let Wd := (((x.getD 0 []).getD 0 []).getD 0 []).length
  let oH := (H + 2 * c.pad - kh) / c.stride + 1
  let oW := (Wd + 2 * c.pad - kw) / c.stride + 1
  let col := im2col c.stride c.pad kh kw oH oW x
  let colW := (c.W.map (fun filt => (filt.map List.flatten).flatten)).transpose
  let out := (matMul col colW).map (fun r => List.zipWith (fun u v => u + v) r c.b)
  ({ c with x_shape := [x.length, (x.getD 0 []).length, H, Wd],
            col := col, col_W := colW },
   reshapeConvOut FN oH oW x.length out)

/-- Modelled from the spec: Convolution backward (spec section 4.1): reshape
dout to (batch*oH*oW, out_channels); bias gradient is the column sum, weight
gradient is patch-matrix-transpose times dout reshaped to the weight's 4-D
shape, input gradient scatters dout times the weight matrix back through
`col2im`.  Stores dW and db on the instance. -/
def Convolution.backward (c : Convolution) (dout : Tensor4) : Convolution × Tensor4 :=
  let FN := c.W.length
  let C := (c.W.getD 0 []).length
  let kh := ((c.W.getD 0 []).getD 0 []).length
  let kw := (((c.W.getD 0 []).getD 0 []).getD 0 []).length
  let N := dout.length
  let oH := ((dout.getD 0 []).getD 0 []).length
  let oW := (((dout.getD 0 []).getD 0 []).getD 0 []).length
  let dout2 : Mat :=
    (((List.range N).map (fun n =>
      (List.range oH).map (fun oh =>
        (List.range oW).map (fun ow =>
          (List.range FN).map (fun f => get4 dout 0 n f oh ow))))).flatten).flatten
  let db := dout2.transpose.map List.sum
  let dWmat := (matMul c.col.transpose dout2).transpose
  let dW4 := dWmat.map (fun r => reshape3 C kh kw r)
  let dcol := matMul dout2 c.col_W.transpose
  let dx := col2im c.stride c.pad kh kw oH oW (c.x_shape.getD 0 0)
    (c.x_shape.getD 1 0) (c.x_shape.getD 2 0) (c.x_shape.getD 3 0) dcol
  ({ c with dW := dW4, db := db }, dx)

/-! ## Relu, Pooling, Affine, SoftmaxWithLoss layers -/

/-- Modelled from the spec: the Relu activation layer of the absent module
`common.layers` (spec section 4.4): forward caches a boolean mask of the
non-positive entries and zeroes them; backward zeroes upstream gradient
entries wherever the cached mask is set. -/
structure Relu where
  mask : DT Bool := DT.t2 []
deriving DecidableEq

/-- Modelled from the spec: Relu forward (spec section 4.4). -/
def Relu.forward (_r : Relu) (x : DT ℚ) : Relu × DT ℚ :=
  ({ mask := x.map (fun q => decide (q ≤ 0)) },
   x.map (fun q => if q ≤ 0 then 0 else q))

/-- Modelled from the spec: Relu backward (spec section 4.4). -/
def Relu.backward (r : Relu) (dout : DT ℚ) : Relu × DT ℚ :=
  (r, DT.zip (fun m d => if m = 1 then 0 else d)
        (r.mask.map (fun b => if b then (1 : ℚ) else 0)) dout)

/-- Modelled from the spec: the max-Pooling layer of the absent module
`common.layers` (spec section 4.2).  Constructed with pool height/width and
stride (no padding); forward caches the input shape and, per output position,
the flat row-major index of the window maximum (first occurrence). -/
structure Pooling where
  pool_h : ℕ
  pool_w : ℕ
  stride : ℕ
  x_shape : List ℕ := []
  arg_max : List (List (List (List ℕ))) := []
deriving DecidableEq

/-- The pool window at output position (oh, ow) of one channel, flattened in
row-major order. -/
def poolWindow (p : Pooling) (ch : Mat) (oh ow : ℕ) : Vec :=
  ((List.range p.pool_h).map (fun i =>
    (List.range p.pool_w).map (fun j =>
      get2 ch (oh * p.stride + i) (ow * p.stride + j)))).flatten

/-- Modelled from the spec: Pooling forward (spec section 4.2): the maximum of
every strided window per channel, recording the flat arg-max index per output
position (ties to the earliest index in row-major scan order). -/
def Pooling.forward (p : Pooling) (x : Tensor4) : Pooling × Tensor4 :=
  let H := ((x.getD 0 []).getD 0 []).length
  let Wd := (((x.getD 0 []).getD 0 []).getD 0 []).length
  let oH := (H - p.pool_h) / p.stride + 1
  let oW := (Wd - p.pool_w) / p.stride + 1
  ({ p with x_shape := [x.length, (x.getD 0 []).length, H, Wd],
            arg_max := x.map (fun sample => sample.map (fun ch =>
              (List.range oH).map (fun oh =>
                (List.range oW).map (fun ow => argmaxQ (poolWindow p ch oh ow))))) },
   x.map (fun sample => sample.map (fun ch =>
     (List.range oH).map (fun oh =>
       (List.range oW).map (fun ow => maxQ (poolWindow p ch oh ow))))))

/-- Modelled from the spec: Pooling backward (spec section 4.2): each output
position routes its entire upstream gradient to the cached arg-max position of
its window, every other position receiving zero; positions covered by several
windows accumulate additively (the implementation must not assume
non-overlap). -/
def Pooling.backward (p : Pooling) (dout : Tensor4) : Pooling × Tensor4 :=
  let oH := ((dout.getD 0 []).getD 0 []).length
  let oW := (((dout.getD 0 []).getD 0 []).getD 0 []).length
  (p,
   (List.range (p.x_shape.getD 0 0)).map (fun n =>
     (List.range (p.x_shape.getD 1 0)).map (fun c =>
       (List.range (p.x_shape.getD 2 0)).map (fun ih =>
         (List.range (p.x_shape.getD 3 0)).map (fun iw =>
           ((List.range oH).map (fun oh =>
             ((List.range oW).map (fun ow =>
               let k := get4 p.arg_max 0 n c oh ow
               if oh * p.stride + k / p.pool_w = ih ∧
                   ow * p.stride + k % p.pool_w = iw then
                 get4 dout 0 n c oh ow
               else 0)).sum)).sum)))))

/-- Modelled from the spec: the Affine (dense) layer of the absent module
`common.layers` (spec section 4.3).  Owns a weight matrix
(in_features, out_features) and bias (out_features,); forward flattens any
leading batch/spatial dimensions into one batch axis and caches the flattened
input and the original shape; backward stores dW/db on the instance. -/
structure Affine where
  W : Mat
  b : Vec
  x2 : Mat := []
  x_shape : List ℕ := []
  dW : Mat := []
  db : Vec := []
deriving DecidableEq

/-- Flatten one sample's trailing dimensions (numpy `x.reshape(N, -1)`). -/
def flattenSample (s : Tensor3) : Vec :=
  (s.map List.flatten).flatten

/-- The numpy shape of a dynamic tensor, as a dimension list. -/
def DT.shapeOf : DT ℚ → List ℕ
  | .t2 m => [m.length, (m.getD 0 []).length]
  | .t4 t => [t.length, (t.getD 0 []).length, ((t.getD 0 []).getD 0 []).length,
      (((t.getD 0 []).getD 0 []).getD 0 []).length]

/-- Modelled from the spec: Affine forward (spec section 4.3): flatten to one
batch axis, compute x*W + b, cache the flattened input and the original
shape. -/
def Affine.forward (a : Affine) (x : DT ℚ) : Affine × DT ℚ :=
  let x2 : Mat :=
    match x with
    | .t2 m => m
    | .t4 t => t.map flattenSample
  ({ a with x2 := x2, x_shape := x.shapeOf },
   .t2 ((matMul x2 a.W).map (fun r => List.zipWith (fun u v => u + v) r a.b)))

/-- Modelled from the spec: Affine backward (spec section 4.3):
dW = x-transpose * dout, db = column-sum of dout, dx = dout * W-transpose
reshaped back to the original (pre-flatten) input shape.  Stores dW and db on
the instance.  (A 4-D upstream gradient cannot occur here; it is returned
unchanged.) -/
def Affine.backward (a : Affine) (dout : DT ℚ) : Affine × DT ℚ :=
  match dout with
  | .t4 t => ({ a with dW := [], db := [] }, .t4 t)
  | .t2 d =>
    let dx2 := matMul d a.W.transpose
    let dx : DT ℚ :=
      if a.x_shape.length = 4 then
        .t4 (dx2.map (fun r =>
          reshape3 (a.x_shape.getD 1 0) (a.x_shape.getD 2 0) (a.x_shape.getD 3 0) r))
      else .t2 dx2
    ({ a with dW := matMul a.x2.transpose d, db := d.transpose.map List.sum }, dx)

/-! ## SoftmaxWithLoss layer

The transcendental `exp` and `log` of the numeric substrate are taken as
explicit function parameters `fexp`/`flog`; every theorem below quantifies
over them, so nothing proved depends on their values. -/

/-- Modelled from the spec: the combined softmax + cross-entropy loss layer of
the absent module `common.layers` (spec section 4.5).  Caches the probability
matrix and the target for backward, and the scalar loss. -/
structure SoftmaxWithLoss where
  loss : ℚ := 0
  y : Mat := []
  t : Target := Target.ints []
deriving DecidableEq

/-- Numerically-stable softmax of one score row (spec section 4.5): subtract
the row maximum before exponentiating, then normalize. -/
def softmaxRow (fexp : ℚ → ℚ) (r : Vec) : Vec :=
  let mx := maxQ r
  let e := r.map (fun q => fexp (q - mx))
  e.map (fun q => q / e.sum)

/-- Modelled from the spec: SoftmaxWithLoss forward (spec section 4.5):
row-wise stable softmax, then cross-entropy against the target (integer class
indices, or one-hot reduced to indices by row-wise argmax), averaged over the
batch; caches probabilities and target and returns the scalar average loss. -/
def SoftmaxWithLoss.forward (fexp flog : ℚ → ℚ) (_sl : SoftmaxWithLoss)
    (x : DT ℚ) (t : Target) : SoftmaxWithLoss × ℚ :=
  let y := x.asMat.map (softmaxRow fexp)
  let tl := t.labels
  let L := -(((List.range y.length).map
      (fun n => flog (get2 y n (tl.getD n 0)))).sum) / y.length
  ({ loss := L, y := y, t := t }, L)

/-- Modelled from the spec: SoftmaxWithLoss backward (spec section 4.5): with a
one-hot target the gradient is (probabilities - target) / batch_size; with
integer indices it is the probabilities with 1 subtracted at the true-class
column per row, divided by batch_size.  This is the analytic simplification of
the joint softmax-cross-entropy derivative; the upstream seed (always 1 in the
source) does not scale it. -/
def SoftmaxWithLoss.backward (sl : SoftmaxWithLoss) (_dout : ℚ) : DT ℚ :=
  match sl.t with
  | .onehot tm =>
      .t2 (List.zipWith (List.zipWith (fun a b => (a - b) / tm.length)) sl.y tm)
  | .ints ti =>
      .t2 ((sl.y.enum).map (fun nr =>
        (nr.2.enum).map (fun jq =>
          (if jq.1 = ti.getD nr.1 0 then jq.2 - 1 else jq.2) / ti.length)))

/-! ## The ordered layer collection

The source keeps its layers in an `OrderedDict`; the embedding keeps an
association list in insertion order, with a tagged-variant layer type for the
heterogeneous values. -/

/-- One layer of the network's ordered layer dictionary. -/
inductive Layer where
  | conv : Convolution → Layer
  | relu : Relu → Layer
  | pool : Pooling → Layer
  | affine : Affine → Layer
deriving DecidableEq

/-- Virtual-dispatch forward: a convolution or pooling layer applied to 2-D
data would be a numpy shape error in the source (a state the fixed network
never reaches); the embedding's arbitrary total extension of that error state
returns the input unchanged with the caches cleared. -/
def Layer.forward : Layer → DT ℚ → Layer × DT ℚ
  | .conv c, .t4 x => let r := c.forward x; (.conv r.1, .t4 r.2)
  | .conv c, x => (.conv { c with x_shape := [], col := [], col_W := [] }, x)
  | .relu rl, x => let r := rl.forward x; (.relu r.1, r.2)
  | .pool p, .t4 x => let r := p.forward x; (.pool r.1, .t4 r.2)
  | .pool p, x => (.pool { p with x_shape := [], arg_max := [] }, x)
  | .affine a, x => let r := a.forward x; (.affine r.1, r.2)

/-- Virtual-dispatch backward, mirroring `Layer.forward`; the unreachable
rank-mismatch branches clear the gradient slots. -/
def Layer.backward : Layer → DT ℚ → Layer × DT ℚ
  | .conv c, .t4 d => let r := c.backward d; (.conv r.1, .t4 r.2)
  | .conv c, d => (.conv { c with dW := [], db := [] }, d)
  | .relu rl, d => let r := rl.backward d; (.relu r.1, r.2)
  | .pool p, .t4 d => let r := p.backward d; (.pool r.1, .t4 r.2)
  | .pool p, d => (.pool p, d)
  | .affine a, d => let r := a.backward d; (.affine r.1, r.2)

/-- A parameter or gradient tensor of the name-keyed mappings (`self.params`
and the result of `gradient`): bias vectors, affine weight matrices, or the
4-D convolution filter block. -/
inductive PTensor where
  | vec : Vec → PTensor
  | mat : Mat → PTensor
  | t4 : Tensor4 → PTensor
deriving DecidableEq

/-! ## The network (SimpleConvNet, HW#2.py lines 13-138) -/

/-- The network: the flat parameter mapping built at construction, the ordered
layer dictionary, and the distinguished terminal loss layer (HW#2.py lines
44-72). -/
structure SimpleConvNet where
  params : List (String × PTensor)
  layers : List (String × Layer)
  lastLayer : SoftmaxWithLoss
deriving DecidableEq

/-- Network construction (HW#2.py lines 25-72).  The random weight draws of
lines 45-55 happen outside the core (numpy's RNG); the eight drawn tensors are
taken as arguments.  The parameter mapping is keyed W1,b1,W2,b2,W3,b3,W4,b4 in
insertion order (lines 44-55) and the layer dictionary is built in the fixed
insertion order Conv1, Relu1, Pool1, Affine1, Relu2, Affine2, Relu3, Affine3
(lines 58-72), the convolution taking the configured stride and pad and the
pooling fixed at 2x2 stride 2. -/
def SimpleConvNet.init (stride pad : ℕ) (W1 : Tensor4) (b1 : Vec) (W2 : Mat)
    (b2 : Vec) (W3 : Mat) (b3 : Vec) (W4 : Mat) (b4 : Vec) : SimpleConvNet where
  params := [("W1", .t4 W1), ("b1", .vec b1), ("W2", .mat W2), ("b2", .vec b2),
             ("W3", .mat W3), ("b3", .vec b3), ("W4", .mat W4), ("b4", .vec b4)]
  layers := [("Conv1", .conv { W := W1, b := b1, stride := stride, pad := pad }),
             ("Relu1", .relu {}),
             ("Pool1", .pool { pool_h := 2, pool_w := 2, stride := 2 }),
             ("Affine1", .affine { W := W2, b := b2 }),
             ("Relu2", .relu {}),
             ("Affine2", .affine { W := W3, b := b3 }),
             ("Relu3", .relu {}),
             ("Affine3", .affine { W := W4, b := b4 })]
  lastLayer := {}

/-- The loop body of `predict` (HW#2.py lines 75-76): thread the data through
every layer in insertion order, each layer's cache mutation recorded in the
returned layer list. -/
def predictAux : List (String × Layer) → DT ℚ → List (String × Layer) × DT ℚ
  | [], x => ([], x)
  | (k, l) :: rest, x =>
    let r := l.forward x
    let r2 := predictAux rest r.2
    ((k, r.1) :: r2.1, r2.2)

/-- `predict` (HW#2.py lines 74-78): forward through all non-loss layers in
insertion order; returns raw class scores.  The cache side effects of the
layers are returned as the updated network. -/
def SimpleConvNet.predict (n : SimpleConvNet) (x : DT ℚ) : SimpleConvNet × DT ℚ :=
  let r := predictAux n.layers x
  ({ n with layers := r.1 }, r.2)

/-- `loss` (HW#2.py lines 80-89): predict, then forward through the terminal
loss layer; returns the scalar loss. -/
def SimpleConvNet.loss (fexp flog : ℚ → ℚ) (n : SimpleConvNet) (x : DT ℚ)
    (t : Target) : SimpleConvNet × ℚ :=
  let r := n.predict x
  let r2 := r.1.lastLayer.forward fexp flog r.2 t
  ({ r.1 with lastLayer := r2.1 }, r2.2)

/-- Exact-match count between predicted and true labels:
`np.sum(y == tt)` for equal-length index vectors (HW#2.py line 101). -/
def countMatches (a b : List ℕ) : ℕ :=
  (List.zipWith (fun u v => if u = v then 1 else 0) a b).sum

/-- The chunk loop body of `accuracy` (HW#2.py lines 96-101): slice chunk `i`,
predict it, row-wise argmax, count exact matches. -/
def accStep (x : Tensor4) (t1 : List ℕ) (batch_size : ℕ)
    (acc : SimpleConvNet × ℕ) (i : ℕ) : SimpleConvNet × ℕ :=
  let tx := (x.drop (i * batch_size)).take batch_size
  let tt := (t1.drop (i * batch_size)).take batch_size
  let r := acc.1.predict (.t4 tx)
  (r.1, acc.2 + countMatches (r.2.asMat.map argmaxQ) tt)

/-- `accuracy` (HW#2.py lines 91-103): reduce a one-hot target to indices by
row-wise argmax, walk `int(x.shape[0] / batch_size)` consecutive chunks of
`batch_size` samples, predict each chunk, count rows whose predicted argmax
equals the label, and divide the accumulated count by the full sample count.
A zero `batch_size` (division in `int(x.shape[0] / batch_size)`) or an empty
`x` (division `acc / x.shape[0]`) raises ZeroDivisionError in the source;
those branches return `none`. -/
def SimpleConvNet.accuracy (n : SimpleConvNet) (x : Tensor4)
    (t : Target) (batch_size : ℕ) : SimpleConvNet × Option ℚ :=
  let t1 := t.labels
  if batch_size = 0 then (n, none) else
  let r := (List.range (x.length / batch_size)).foldl
    (accStep x t1 batch_size) (n, 0)
  if x.length = 0 then (r.1, none) else (r.1, some ((r.2 : ℚ) / (x.length : ℚ)))

/-- The reversed backward walk of `gradient` (HW#2.py lines 126-129): the
argument list is already reversed; each layer's backward is invoked in turn,
its dW/db side effects recorded in the returned layer list. -/
def backwardAux : List (String × Layer) → DT ℚ → List (String × Layer) × DT ℚ
  | [], d => ([], d)
  | (k, l) :: rest, d =>
    let r := l.backward d
    let r2 := backwardAux rest r.2
    ((k, r.1) :: r2.1, r2.2)

/-- Dictionary lookup in the layer collection (`self.layers['Conv1']` etc.);
the default is never reached on a constructed network. -/
def SimpleConvNet.layerAt (n : SimpleConvNet) (key : String) : Layer :=
  match n.layers.find? (fun p => p.1 = key) with
  | some p => p.2
  | none => .relu {}

/-- The Convolution view of a layer (`self.layers['Conv1']` has this type on a
constructed network). -/
def Layer.asConv : Layer → Convolution
  | .conv c => c
  | _ => { W := [], b := [], stride := 0, pad := 0 }

/-- The Affine view of a layer. -/
def Layer.asAffine : Layer → Affine
  | .affine a => a
  | _ => { W := [], b := [] }

/-- The gradient-collection block of `gradient` (HW#2.py lines 131-136): a
freshly built mapping, keyed W1,b1,W2,b2,W3,b3,W4,b4 in insertion order, bound
to the dW/db stored on the Convolution layer and the three Affine layers. -/
def SimpleConvNet.collectGrads (n2 : SimpleConvNet) : List (String × PTensor) :=
  [("W1", .t4 (n2.layerAt "Conv1").asConv.dW),
   ("b1", .vec (n2.layerAt "Conv1").asConv.db),
   ("W2", .mat (n2.layerAt "Affine1").asAffine.dW),
   ("b2", .vec (n2.layerAt "Affine1").asAffine.db),
   ("W3", .mat (n2.layerAt "Affine2").asAffine.dW),
   ("b3", .vec (n2.layerAt "Affine2").asAffine.db),
   ("W4", .mat (n2.layerAt "Affine3").asAffine.dW),
   ("b4", .vec (n2.layerAt "Affine3").asAffine.db)]

/-- `gradient` (HW#2.py lines 105-138): run `loss` (populating every layer's
cache), seed the backward pass with `dout = 1`, invoke the loss layer's
backward, walk the remaining layers in exact reverse insertion order invoking
each backward, then collect the dW/db stored by the Convolution layer and the
three Affine layers into a freshly built mapping keyed W1,b1,W2,b2,W3,b3,W4,b4
(lines 131-136). -/
def SimpleConvNet.gradient (fexp flog : ℚ → ℚ) (n : SimpleConvNet) (x : DT ℚ)
    (t : Target) : SimpleConvNet × List (String × PTensor) :=
  let r := n.loss fexp flog x t
  let dout : ℚ := 1
  let d1 := r.1.lastLayer.backward dout
  let rb := backwardAux r.1.layers.reverse d1
  let n2 : SimpleConvNet := { r.1 with layers := rb.1.reverse }
  (n2, n2.collectGrads)

/-! ## State views

`LCore` is the forward-relevant part of a layer (owned parameters and
configuration: everything `forward` reads).  `LView` additionally includes the
caches (everything `backward` reads) but not the dW/db gradient slots.  The
lemmas below show forward reads only the core and overwrites every cache, and
backward reads only the `LView` part and overwrites the gradient slots — the
structural facts behind the frame, idempotence and freshness claims. -/

/-- Parameters and configuration of a layer: everything its forward reads. -/
inductive LCore where
  | conv : Tensor4 → Vec → ℕ → ℕ → LCore
  | relu : LCore
  | pool : ℕ → ℕ → ℕ → LCore
  | affine : Mat → Vec → LCore
deriving DecidableEq

/-- Everything a layer's backward reads: core plus caches (no gradient slots). -/
inductive LView where
  | conv : Tensor4 → Vec → ℕ → ℕ → List ℕ → Mat → Mat → LView
  | relu : DT Bool → LView
  | pool : ℕ → ℕ → ℕ → List ℕ → List (List (List (List ℕ))) → LView
  | affine : Mat → Vec → Mat → List ℕ → LView
deriving DecidableEq

/-- The core view of a layer. -/
def Layer.core : Layer → LCore
  | .conv c => .conv c.W c.b c.stride c.pad
  | .relu _ => .relu
  | .pool p => .pool p.pool_h p.pool_w p.stride
  | .affine a => .affine a.W a.b

/-- The core-plus-cache view of a layer. -/
def Layer.fb : Layer → LView
  | .conv c => .conv c.W c.b c.stride c.pad c.x_shape c.col c.col_W
  | .relu r => .relu r.mask
  | .pool p => .pool p.pool_h p.pool_w p.stride p.x_shape p.arg_max
  | .affine a => .affine a.W a.b a.x2 a.x_shape

/-- The owned parameter tensors of a layer (weight then bias; activation and
pooling layers own none). -/
def Layer.paramsOf : Layer → List PTensor
  | .conv c => [.t4 c.W, .vec c.b]
  | .relu _ => []
  | .pool _ => []
  | .affine a => [.mat a.W, .vec a.b]

/-- The parameter tensors determined by a core view. -/
def LCore.wOf : LCore → List PTensor
  | .conv W b _ _ => [.t4 W, .vec b]
  | .relu => []
  | .pool _ _ _ => []
  | .affine W b => [.mat W, .vec b]

theorem paramsOf_eq_core_wOf (l : Layer) : l.paramsOf = l.core.wOf := by
  cases l <;> rfl

/-- Forward never writes a layer's parameters or configuration. -/
theorem Layer.forward_core (l : Layer) (x : DT ℚ) : (l.forward x).1.core = l.core := by
  cases l <;> cases x <;>
    simp [Layer.forward, Layer.core, Convolution.forward, Relu.forward,
      Pooling.forward, Affine.forward]

/-- Backward never writes a layer's parameters or configuration. -/
theorem Layer.backward_core (l : Layer) (d : DT ℚ) : (l.backward d).1.core = l.core := by
  cases l <;> cases d <;>
    simp [Layer.backward, Layer.core, Convolution.backward, Relu.backward,
      Pooling.backward, Affine.backward]

/-- Forward output and post-forward caches are functions of the core and the
input alone: two layers with equal cores produce equal outputs and equal
core-plus-cache states, whatever their previous caches and gradient slots. -/
theorem Layer.forward_det (l l' : Layer) (x : DT ℚ) (h : l.core = l'.core) :
    (l.forward x).2 = (l'.forward x).2 ∧ (l.forward x).1.fb = (l'.forward x).1.fb := by
  cases l <;> cases l' <;> simp [Layer.core] at h
  case conv.conv c c' =>
    obtain ⟨h1, h2, h3, h4⟩ := h
    cases x <;>
      simp [Layer.forward, Layer.fb, Convolution.forward, h1, h2, h3, h4]
  case relu.relu r r' =>
    cases x <;> simp [Layer.forward, Layer.fb, Relu.forward]
  case pool.pool p p' =>
    obtain ⟨h1, h2, h3⟩ := h
    cases x <;>
      simp [Layer.forward, Layer.fb, Pooling.forward, poolWindow, h1, h2, h3]
  case affine.affine a a' =>
    obtain ⟨h1, h2⟩ := h
    cases x <;> simp [Layer.forward, Layer.fb, Affine.forward, h1, h2]

/-- Backward is a function of the core-plus-cache view and the upstream
gradient alone, and it overwrites the gradient slots: two layers with equal
views produce fully equal results. -/
theorem Layer.backward_det (l l' : Layer) (d : DT ℚ) (h : l.fb = l'.fb) :
    l.backward d = l'.backward d := by
  cases l <;> cases l' <;> simp [Layer.fb] at h
  case conv.conv c c' =>
    obtain ⟨W, b, s, p, xs, col, colW, dW, db⟩ := c
    obtain ⟨W', b', s', p', xs', col', colW', dW', db'⟩ := c'
    simp at h
    obtain ⟨h1, h2, h3, h4, h5, h6, h7⟩ := h
    cases d <;> simp [Layer.backward, Convolution.backward, h1, h2, h3, h4, h5, h6, h7]
  case relu.relu r r' =>
    obtain ⟨m⟩ := r
    obtain ⟨m'⟩ := r'
    simp at h
    cases d <;> simp [Layer.backward, Relu.backward, h]
  case pool.pool p p' =>
    obtain ⟨ph, pw, s, xs, am⟩ := p
    obtain ⟨ph', pw', s', xs', am'⟩ := p'
    simp at h
    obtain ⟨h1, h2, h3, h4, h5⟩ := h
    cases d <;> simp [Layer.backward, Pooling.backward, h1, h2, h3, h4, h5]
  case affine.affine a a' =>
    obtain ⟨W, b, x2, xs, dW, db⟩ := a
    obtain ⟨W', b', x2', xs', dW', db'⟩ := a'
    simp at h
    obtain ⟨h1, h2, h3, h4⟩ := h
    cases d <;> simp [Layer.backward, Affine.backward, h1, h2, h3, h4]

/-- The cores of an ordered layer collection, keys included. -/
def coresOf (ls : List (String × Layer)) : List (String × LCore) :=
  ls.map (fun p => (p.1, p.2.core))

/-- The core-plus-cache views of an ordered layer collection, keys included. -/
def fbsOf (ls : List (String × Layer)) : List (String × LView) :=
  ls.map (fun p => (p.1, p.2.fb))

/-- The name-keyed view of every parameter tensor owned by the layers. -/
def SimpleConvNet.weightView (n : SimpleConvNet) : List (String × List PTensor) :=
  n.layers.map (fun p => (p.1, p.2.paramsOf))

theorem weightView_eq_coresOf (n : SimpleConvNet) :
    n.weightView = (coresOf n.layers).map (fun p => (p.1, p.2.wOf)) := by
  simp [SimpleConvNet.weightView, coresOf, Function.comp, paramsOf_eq_core_wOf]

/-- The forward walk writes only caches: cores are preserved. -/
theorem predictAux_cores (ls : List (String × Layer)) (x : DT ℚ) :
    coresOf (predictAux ls x).1 = coresOf ls := by
  induction ls generalizing x with
  | nil => simp [predictAux]
  | cons p rest ih =>
    simp [predictAux, coresOf, Layer.forward_core]
    exact ih _

/-- The backward walk writes only gradient slots: cores are preserved. -/
theorem backwardAux_cores (ls : List (String × Layer)) (d : DT ℚ) :
    coresOf (backwardAux ls d).1 = coresOf ls := by
  induction ls generalizing d with
  | nil => simp [backwardAux]
  | cons p rest ih =>
    simp [backwardAux, coresOf, Layer.backward_core]
    exact ih _

/-- The forward walk is determined by the cores and the input: collections
with equal cores produce the same data and end in cache states with equal
core-plus-cache views. -/
theorem predictAux_det (ls ls' : List (String × Layer)) (x : DT ℚ)
    (h : coresOf ls = coresOf ls') :
    (predictAux ls x).2 = (predictAux ls' x).2 ∧
      fbsOf (predictAux ls x).1 = fbsOf (predictAux ls' x).1 := by
  induction ls generalizing ls' x with
  | nil =>
    have : ls' = [] := by
      cases ls' with
      | nil => rfl
      | cons q r => simp [coresOf] at h
    subst this
    exact ⟨rfl, rfl⟩
  | cons p rest ih =>
    cases ls' with
    | nil => simp [coresOf] at h
    | cons q rest' =>
      simp [coresOf] at h
      obtain ⟨⟨hk, hc⟩, hrest⟩ := h
      have hf := Layer.forward_det p.2 q.2 x hc
      have hrest2 : coresOf rest = coresOf rest' := hrest
      have ihr := ih (x := (q.2.forward x).2) rest' hrest2
      constructor
      · simp [predictAux]
        rw [hf.1]
        exact ihr.1
      · simp [predictAux, fbsOf, hk, hf.2]
        rw [hf.1]
        exact ihr.2

/-- The backward walk is fully determined by the core-plus-cache views and the
upstream gradient. -/
theorem backwardAux_det (ls ls' : List (String × Layer)) (d : DT ℚ)
    (h : fbsOf ls = fbsOf ls') (hk : ls.map Prod.fst = ls'.map Prod.fst) :
    backwardAux ls d = backwardAux ls' d := by
  induction ls generalizing ls' d with
  | nil =>
    cases ls' with
    | nil => rfl
    | cons q r => simp [fbsOf] at h
  | cons p rest ih =>
    cases ls' with
    | nil => simp [fbsOf] at h
    | cons q rest' =>
      simp [fbsOf] at h
      simp at hk
      obtain ⟨⟨hkey, hv⟩, hrest⟩ := h
      have hrest2 : fbsOf rest = fbsOf rest' := hrest
      have hb := Layer.backward_det p.2 q.2 d hv
      simp [backwardAux, hkey, hb]
      rw [ih (d := (q.2.backward d).2) rest' hrest2 hk.2]
      exact ⟨rfl, rfl⟩

theorem fbsOf_reverse (ls : List (String × Layer)) :
    fbsOf ls.reverse = (fbsOf ls).reverse := by
  simp [fbsOf]

theorem fbs_eq_keys {ls ls' : List (String × Layer)} (h : fbsOf ls = fbsOf ls') :
    ls.map Prod.fst = ls'.map Prod.fst := by
  have := congrArg (List.map Prod.fst) h
  simpa [fbsOf, List.map_map, Function.comp] using this

theorem predict_cores (n : SimpleConvNet) (x : DT ℚ) :
    coresOf (n.predict x).1.layers = coresOf n.layers := by
  simp [SimpleConvNet.predict, predictAux_cores]

theorem predict_det {n n' : SimpleConvNet} (x : DT ℚ)
    (h : coresOf n.layers = coresOf n'.layers) :
    (n.predict x).2 = (n'.predict x).2 := by
  simp [SimpleConvNet.predict]
  exact (predictAux_det n.layers n'.layers x h).1

theorem loss_cores (fexp flog : ℚ → ℚ) (n : SimpleConvNet) (x : DT ℚ) (t : Target) :
    coresOf (n.loss fexp flog x t).1.layers = coresOf n.layers := by
  simp [SimpleConvNet.loss, SimpleConvNet.predict, predictAux_cores]

theorem gradient_cores (fexp flog : ℚ → ℚ) (n : SimpleConvNet) (x : DT ℚ) (t : Target) :
    coresOf (n.gradient fexp flog x t).1.layers = coresOf n.layers := by
  simp [SimpleConvNet.gradient, SimpleConvNet.loss, SimpleConvNet.predict, coresOf,
    List.map_reverse]
  have hb := backwardAux_cores
    ((predictAux n.layers x).1.reverse)
    ((SoftmaxWithLoss.forward fexp flog n.lastLayer (predictAux n.layers x).2 t).1.backward 1)
  have hp := predictAux_cores n.layers x
  simp [coresOf] at hb hp
  rw [hb]
  simp [List.map_reverse, hp]

theorem accStep_cores (x : Tensor4) (t1 : List ℕ) (b : ℕ)
    (st : SimpleConvNet × ℕ) (i : ℕ) :
    coresOf ((accStep x t1 b st i).1).layers = coresOf st.1.layers := by
  simp [accStep, predict_cores]

theorem accFold_cores (x : Tensor4) (t1 : List ℕ) (b : ℕ) (idxs : List ℕ)
    (st : SimpleConvNet × ℕ) :
    coresOf ((idxs.foldl (accStep x t1 b) st).1).layers = coresOf st.1.layers := by
  induction idxs generalizing st with
  | nil => rfl
  | cons i rest ih =>
    simp [List.foldl]
    rw [ih (accStep x t1 b st i)]
    exact accStep_cores x t1 b st i

theorem accuracy_cores (n : SimpleConvNet) (x : Tensor4) (t : Target) (b : ℕ) :
    coresOf (n.accuracy x t b).1.layers = coresOf n.layers := by
  by_cases hb : b = 0
  · simp [SimpleConvNet.accuracy, hb]
  · by_cases hx : x.length = 0 <;>
      simp [SimpleConvNet.accuracy, hb, hx, accFold_cores]

theorem predict_params (n : SimpleConvNet) (x : DT ℚ) :
    (n.predict x).1.params = n.params := rfl

theorem loss_params (fexp flog : ℚ → ℚ) (n : SimpleConvNet) (x : DT ℚ) (t : Target) :
    (n.loss fexp flog x t).1.params = n.params := rfl

theorem gradient_params (fexp flog : ℚ → ℚ) (n : SimpleConvNet) (x : DT ℚ) (t : Target) :
    (n.gradient fexp flog x t).1.params = n.params := rfl

theorem accFold_params (x : Tensor4) (t1 : List ℕ) (b : ℕ) (idxs : List ℕ)
    (st : SimpleConvNet × ℕ) :
    ((idxs.foldl (accStep x t1 b) st).1).params = st.1.params := by
  induction idxs generalizing st with
  | nil => rfl
  | cons i rest ih =>
    simp [List.foldl]
    rw [ih (accStep x t1 b st i)]
    rfl

theorem accuracy_params (n : SimpleConvNet) (x : Tensor4) (t : Target) (b : ℕ) :
    (n.accuracy x t b).1.params = n.params := by
  by_cases hb : b = 0
  · simp [SimpleConvNet.accuracy, hb]
  · by_cases hx : x.length = 0 <;>
      simp [SimpleConvNet.accuracy, hb, hx, accFold_params]

theorem cores_eq_weightView {n n' : SimpleConvNet}
    (h : coresOf n.layers = coresOf n'.layers) : n.weightView = n'.weightView := by
  rw [weightView_eq_coresOf, weightView_eq_coresOf, h]

theorem layerAt_of_layers_eq {m m' : SimpleConvNet} (k : String)
    (h : m.layers = m'.layers) : m.layerAt k = m'.layerAt k := by
  simp [SimpleConvNet.layerAt, h]

theorem collectGrads_of_layers_eq {m m' : SimpleConvNet}
    (h : m.layers = m'.layers) : m.collectGrads = m'.collectGrads := by
  simp [SimpleConvNet.collectGrads, layerAt_of_layers_eq _ h]

/-- The loss layer's forward reads nothing of its previous state. -/
theorem softmax_forward_sl (fexp flog : ℚ → ℚ) (sl sl' : SoftmaxWithLoss)
    (v : DT ℚ) (t : Target) :
    SoftmaxWithLoss.forward fexp flog sl v t = SoftmaxWithLoss.forward fexp flog sl' v t := by
  simp [SoftmaxWithLoss.forward]

/-- The post-backward layer states of `gradient` are determined by the layer
cores, the input and the target: caches and stale gradient slots are all
overwritten along the way. -/
theorem gradient_layers_det (fexp flog : ℚ → ℚ) (n n' : SimpleConvNet)
    (x : DT ℚ) (t : Target) (h : coresOf n.layers = coresOf n'.layers) :
    (n.gradient fexp flog x t).1.layers = (n'.gradient fexp flog x t).1.layers := by
  have pd := predictAux_det n.layers n'.layers x h
  have hfb : fbsOf (predictAux n.layers x).1.reverse
      = fbsOf (predictAux n'.layers x).1.reverse := by
    rw [fbsOf_reverse, fbsOf_reverse, pd.2]
  have hkeys := fbs_eq_keys hfb
  show (backwardAux (predictAux n.layers x).1.reverse
      ((SoftmaxWithLoss.forward fexp flog n.lastLayer (predictAux n.layers x).2 t).1.backward 1)).1.reverse
    = (backwardAux (predictAux n'.layers x).1.reverse
      ((SoftmaxWithLoss.forward fexp flog n'.lastLayer (predictAux n'.layers x).2 t).1.backward 1)).1.reverse
  rw [pd.1, softmax_forward_sl fexp flog n.lastLayer n'.lastLayer,
    backwardAux_det _ _ _ hfb hkeys]

/-- The gradient mapping is determined by the layer cores, the input and the
target alone: no state left by earlier calls influences it. -/
theorem gradient_det (fexp flog : ℚ → ℚ) (n n' : SimpleConvNet) (x : DT ℚ)
    (t : Target) (h : coresOf n.layers = coresOf n'.layers) :
    (n.gradient fexp flog x t).2 = (n'.gradient fexp flog x t).2 := by
  show (n.gradient fexp flog x t).1.collectGrads
    = (n'.gradient fexp flog x t).1.collectGrads
  exact collectGrads_of_layers_eq (gradient_layers_det fexp flog n n' x t h)

/-- Claim C10: for every network state and every input, calling `predict`
twice in succession with the identical input and no intervening update yields
identical outputs: the caches overwritten by the first call do not influence
the second call's result (forward reads only the layer parameters,
configuration and the input). -/
theorem C10_predict_idempotent (n : SimpleConvNet) (x : DT ℚ) :
    ((n.predict x).1.predict x).2 = (n.predict x).2 := by
  exact predict_det x (predict_cores n x)

/-- Claim C7: `predict`, `loss`, `accuracy` and `gradient` leave every
parameter tensor unchanged: both the name-keyed view of the W/b tensors owned
by the layers (`weightView`) and the network's flat parameter mapping
(`params`) are preserved by all four operations; the backward pass writes only
the layers' own dW/db slots. -/
theorem C7_parameter_frame (fexp flog : ℚ → ℚ) (n : SimpleConvNet) (x : DT ℚ)
    (x4 : Tensor4) (t : Target) (b : ℕ) :
    ((n.predict x).1.weightView = n.weightView ∧
      (n.predict x).1.params = n.params) ∧
    ((n.loss fexp flog x t).1.weightView = n.weightView ∧
      (n.loss fexp flog x t).1.params = n.params) ∧
    ((n.accuracy x4 t b).1.weightView = n.weightView ∧
      (n.accuracy x4 t b).1.params = n.params) ∧
    ((n.gradient fexp flog x t).1.weightView = n.weightView ∧
      (n.gradient fexp flog x t).1.params = n.params) := by
  refine ⟨⟨?_, rfl⟩, ⟨?_, rfl⟩, ⟨?_, ?_⟩, ⟨?_, rfl⟩⟩
  · exact cores_eq_weightView (predict_cores n x)
  · exact cores_eq_weightView (loss_cores fexp flog n x t)
  · exact cores_eq_weightView (accuracy_cores n x4 t b)
  · exact accuracy_params n x4 t b
  · exact cores_eq_weightView (gradient_cores fexp flog n x t)

/-- Claim C5: on a constructed network, `predict` is the composition of the
non-loss layers' forwards in the fixed insertion order Convolution, Relu,
Pooling, Affine, Relu, Affine, Relu, Affine, returning the raw scores of the
final Affine layer (no softmax applied); and `loss` is the terminal
SoftmaxWithLoss forward applied to the predicted scores and the target,
returning its scalar. -/
theorem C5_fixed_topology (stride pad : ℕ) (W1 : Tensor4) (b1 : Vec) (W2 : Mat)
    (b2 : Vec) (W3 : Mat) (b3 : Vec) (W4 : Mat) (b4 : Vec) (x : DT ℚ)
    (t : Target) (fexp flog : ℚ → ℚ) :
    ((SimpleConvNet.init stride pad W1 b1 W2 b2 W3 b3 W4 b4).predict x).2 =
      ((Layer.affine { W := W4, b := b4 }).forward
        ((Layer.relu {}).forward
          ((Layer.affine { W := W3, b := b3 }).forward
            ((Layer.relu {}).forward
              ((Layer.affine { W := W2, b := b2 }).forward
                ((Layer.pool { pool_h := 2, pool_w := 2, stride := 2 }).forward
                  ((Layer.relu {}).forward
                    ((Layer.conv
                      { W := W1, b := b1, stride := stride, pad := pad }).forward
                        x).2).2).2).2).2).2).2).2 ∧
    ((SimpleConvNet.init stride pad W1 b1 W2 b2 W3 b3 W4 b4).loss fexp flog x t).2 =
      (SoftmaxWithLoss.forward fexp flog {}
        ((SimpleConvNet.init stride pad W1 b1 W2 b2 W3 b3 W4 b4).predict x).2 t).2 :=
  ⟨rfl, rfl⟩

/-- Claim C1: on a constructed network, `gradient` first calls `loss`, seeds
the backward pass with 1, walks the layers in exact reverse insertion order
(the `backwardAux` walk over the reversed layer list), and returns a mapping
whose keys are exactly W1,b1,W2,b2,W3,b3,W4,b4 — the key scheme of the
parameter mapping — bound to the dW/db stored by the Convolution layer and the
three Affine layers; the mapping is rebuilt fresh on every call (a second call
from the mutated network state returns the same mapping — no accumulation). -/
theorem C1_gradient_collection (stride pad : ℕ) (W1 : Tensor4) (b1 : Vec)
    (W2 : Mat) (b2 : Vec) (W3 : Mat) (b3 : Vec) (W4 : Mat) (b4 : Vec)
    (fexp flog : ℚ → ℚ) (x : DT ℚ) (t : Target) :
    let n := SimpleConvNet.init stride pad W1 b1 W2 b2 W3 b3 W4 b4
    let r := n.gradient fexp flog x t
    r.2 = [("W1", PTensor.t4 ((r.1.layerAt "Conv1").asConv.dW)),
           ("b1", PTensor.vec ((r.1.layerAt "Conv1").asConv.db)),
           ("W2", PTensor.mat ((r.1.layerAt "Affine1").asAffine.dW)),
           ("b2", PTensor.vec ((r.1.layerAt "Affine1").asAffine.db)),
           ("W3", PTensor.mat ((r.1.layerAt "Affine2").asAffine.dW)),
           ("b3", PTensor.vec ((r.1.layerAt "Affine2").asAffine.db)),
           ("W4", PTensor.mat ((r.1.layerAt "Affine3").asAffine.dW)),
           ("b4", PTensor.vec ((r.1.layerAt "Affine3").asAffine.db))] ∧
    r.2.map Prod.fst = ["W1", "b1", "W2", "b2", "W3", "b3", "W4", "b4"] ∧
    r.2.map Prod.fst = n.params.map Prod.fst ∧
    r.1.layers = (backwardAux (n.loss fexp flog x t).1.layers.reverse
        ((n.loss fexp flog x t).1.lastLayer.backward 1)).1.reverse ∧
    (r.1.gradient fexp flog x t).2 = r.2 := by
  intro n r
  refine ⟨rfl, rfl, rfl, rfl, ?_⟩
  exact gradient_det fexp flog r.1 n x t (gradient_cores fexp flog n x t)

/-- The match count contributed by chunk `i`: predict the slice
`x[i*b:(i+1)*b]`, row-wise argmax, compare with the label slice. -/
def chunkScore (n : SimpleConvNet) (x : Tensor4) (t1 : List ℕ) (b i : ℕ) : ℕ :=
  countMatches (((n.predict (.t4 ((x.drop (i * b)).take b))).2.asMat).map argmaxQ)
    ((t1.drop (i * b)).take b)

/-- The chunk loop of `accuracy` accumulates exactly the per-chunk match
counts, each chunk predicted as if from the starting network: the caches
mutated by earlier chunks do not influence later predictions. -/
theorem accFold_score (x : Tensor4) (t1 : List ℕ) (b : ℕ) (idxs : List ℕ)
    (n : SimpleConvNet) : ∀ (n' : SimpleConvNet) (a : ℕ),
    coresOf n'.layers = coresOf n.layers →
    (idxs.foldl (accStep x t1 b) (n', a)).2
      = a + (idxs.map (chunkScore n x t1 b)).sum := by
  induction idxs with
  | nil => intro n' a _; simp
  | cons i rest ih =>
    intro n' a h
    simp only [List.foldl_cons, List.map_cons, List.sum_cons]
    have hval : (n'.predict (DT.t4 ((x.drop (i * b)).take b))).2
        = (n.predict (DT.t4 ((x.drop (i * b)).take b))).2 :=
      predict_det _ h
    have hstep : accStep x t1 b (n', a) i
        = ((n'.predict (DT.t4 ((x.drop (i * b)).take b))).1,
           a + chunkScore n x t1 b i) := by
      simp [accStep, chunkScore, hval]
    rw [hstep, ih ((n'.predict (DT.t4 ((x.drop (i * b)).take b))).1)
      (a + chunkScore n x t1 b i) (by rw [predict_cores]; exact h)]
    omega

/-- Chunks below the truncation boundary only read the first `m` entries. -/
theorem slice_eq_of_take_eq {α : Type} (x x' : List α) (m i b : ℕ)
    (hm : i * b + b ≤ m) (h : x.take m = x'.take m) :
    (x.drop (i * b)).take b = (x'.drop (i * b)).take b := by
  have h1 : x.take (i * b + b) = x'.take (i * b + b) := by
    have h2 := congrArg (List.take (i * b + b)) h
    simpa [List.take_take, Nat.min_eq_left hm] using h2
  have h3 := congrArg (List.drop (i * b)) h1
  simpa [List.drop_take, Nat.add_sub_cancel_left] using h3

/-- Claim C4 (amended to nonempty input): for nonzero `batch_size` and
nonempty `x`, `accuracy` reduces a one-hot target to indices
(`Target.labels`), processes exactly `x.length / batch_size` consecutive
chunks of `batch_size` samples, counts rows whose predicted argmax equals the
label, and returns that count divided by the full sample count; samples and
labels beyond the last full chunk never influence the result (they are
silently dropped).  On an empty `x` the source raises ZeroDivisionError
instead of returning a value (see the counterexample). -/
theorem C4_accuracy_chunking (n : SimpleConvNet) (x x' : Tensor4)
    (t t' : Target) (b : ℕ) (hb : b ≠ 0) (hx : x ≠ [])
    (hlen : x'.length = x.length)
    (hxa : x'.take ((x.length / b) * b) = x.take ((x.length / b) * b))
    (hta : t'.labels.take ((x.length / b) * b) = t.labels.take ((x.length / b) * b)) :
    (n.accuracy x t b).2 =
      some ((((List.range (x.length / b)).map (chunkScore n x t.labels b)).sum : ℚ)
        / (x.length : ℚ)) ∧
    (n.accuracy x' t' b).2 = (n.accuracy x t b).2 := by
  have hx0 : x.length ≠ 0 := by simpa [List.length_eq_zero] using hx
  have formula : ∀ (y : Tensor4) (s : Target), y.length = x.length →
      (n.accuracy y s b).2 =
        some ((((List.range (x.length / b)).map (chunkScore n y s.labels b)).sum : ℚ)
          / (x.length : ℚ)) := by
    intro y s hy
    have hfold := accFold_score y s.labels b (List.range (y.length / b)) n n 0 rfl
    rw [hy] at hfold
    rw [Nat.zero_add] at hfold
    simp only [SimpleConvNet.accuracy, if_neg hb, hy, if_neg hx0, hfold]
  refine ⟨formula x t rfl, ?_⟩
  rw [formula x' t' hlen, formula x t rfl]
  have hmap : (List.range (x.length / b)).map (chunkScore n x' t'.labels b)
      = (List.range (x.length / b)).map (chunkScore n x t.labels b) := by
    apply List.map_congr_left
    intro i hi
    have hib : i < x.length / b := List.mem_range.mp hi
    have hbound : i * b + b ≤ (x.length / b) * b := by
      have : i + 1 ≤ x.length / b := hib
      calc i * b + b = (i + 1) * b := by ring
        _ ≤ (x.length / b) * b := Nat.mul_le_mul_right b this
    unfold chunkScore
    rw [slice_eq_of_take_eq x' x _ i b hbound hxa,
      slice_eq_of_take_eq t'.labels t.labels _ i b hbound hta]
  rw [hmap]

/-- Witness for C4_accuracy_chunking at a concrete one-sample input with
batch size 1. -/
theorem C4_accuracy_witness :
    ((1 : ℕ) ≠ 0 ∧ ([[]] : Tensor4) ≠ [] ∧
      ([[]] : Tensor4).length = ([[]] : Tensor4).length) ∧
    (((SimpleConvNet.init 1 0 [] [] [] [] [] [] [] []).accuracy
        ([[]] : Tensor4) (Target.ints [0]) 1).2 =
      some ((((List.range (([[]] : Tensor4).length / 1)).map
          (chunkScore (SimpleConvNet.init 1 0 [] [] [] [] [] [] [] [])
            ([[]] : Tensor4) (Target.ints [0]).labels 1)).sum : ℚ)
        / ((([[]] : Tensor4).length : ℚ))) ∧
      ((SimpleConvNet.init 1 0 [] [] [] [] [] [] [] []).accuracy
          ([[]] : Tensor4) (Target.ints [0]) 1).2 =
        ((SimpleConvNet.init 1 0 [] [] [] [] [] [] [] []).accuracy
          ([[]] : Tensor4) (Target.ints [0]) 1).2) :=
  ⟨⟨by decide, by decide, rfl⟩,
   C4_accuracy_chunking (SimpleConvNet.init 1 0 [] [] [] [] [] [] [] [])
     ([[]] : Tensor4) ([[]] : Tensor4) (Target.ints [0]) (Target.ints [0]) 1
     (by decide) (by decide) rfl rfl rfl⟩

/-- Claim C4, counterexample: on the empty input `accuracy` does not return
the count divided by the total (the source raises
`ZeroDivisionError: float division by zero` at `acc / x.shape[0]`); the
embedding returns `none` rather than any rational. -/
theorem C4_counterexample :
    ((SimpleConvNet.init 1 0 [] [] [] [] [] [] [] []).accuracy ([] : Tensor4)
      (Target.ints []) 100).2 = none := rfl

/-- Claim C8 (amended to nonempty input): with the default batch size 100,
every nonempty `x` with fewer than 100 samples yields accuracy exactly 0: the
chunk loop runs zero times, so the match count 0 is divided by the sample
count regardless of the network's predictions.  On the empty `x` the source
raises ZeroDivisionError instead of returning 0.0 (see the counterexample). -/
theorem C8_remainder_scored_zero (n : SimpleConvNet) (x : Tensor4) (t : Target)
    (hx : x ≠ []) (hlen : x.length < 100) :
    (n.accuracy x t 100).2 = some 0 := by
  have hx0 : x.length ≠ 0 := by simpa [List.length_eq_zero] using hx
  simp [SimpleConvNet.accuracy, Nat.div_eq_of_lt hlen, hx0]

/-- Witness for C8_remainder_scored_zero on a concrete one-sample input. -/
theorem C8_remainder_witness :
    (([[]] : Tensor4) ≠ [] ∧ ([[]] : Tensor4).length < 100) ∧
    ((SimpleConvNet.init 1 0 [] [] [] [] [] [] [] []).accuracy ([[]] : Tensor4)
      (Target.ints [0]) 100).2 = some 0 :=
  ⟨⟨by decide, by decide⟩,
   C8_remainder_scored_zero (SimpleConvNet.init 1 0 [] [] [] [] [] [] [] [])
     ([[]] : Tensor4) (Target.ints [0]) (by decide) (by decide)⟩

/-- Claim C8, counterexample: the claim quantifies over every `x` with fewer
samples than the batch size, but on the empty `x` (0 samples) the source
raises ZeroDivisionError at `acc / x.shape[0]` rather than returning 0.0; the
embedding returns `none`, not `some 0`. -/
theorem C8_counterexample :
    ((SimpleConvNet.init 2 1 [] [] [] [] [] [] [] []).accuracy ([] : Tensor4)
      (Target.onehot []) 100).2 = none ∧
    ((SimpleConvNet.init 2 1 [] [] [] [] [] [] [] []).accuracy ([] : Tensor4)
      (Target.onehot []) 100).2 ≠ some 0 :=
  ⟨rfl, by decide⟩

/-! ## The Adam optimizer

Modelled from the spec (section 4.7); the module `common.optimizer` is not in
the repository snapshot.  The parameter/gradient mappings hold one scalar per
key — every tensor operation of the update rule is elementwise, so a scalar
per key is the faithful per-component view.  The square root of the numeric
substrate is passed as the function argument `s`, so the definition stays
computable; the theorems instantiate it with `Real.sqrt`. -/

/-- Association-list lookup (Python dict read). -/
def alookup {α : Type} : List (String × α) → String → Option α
  | [], _ => none
  | (k, v) :: r, key => if k = key then some v else alookup r key

/-- Modelled from the spec: Adam's state (spec sections 3 and 4.7): learning
rate, fixed beta1=0.9, beta2=0.999, eps=1e-7, one shared step counter, and the
two lazily-initialized moment mappings keyed like the parameter mapping. -/
structure Adam (α : Type) where
  lr : α
  beta1 : α
  beta2 : α
  eps : α
  iter : ℕ
  m : Option (List (String × α))
  v : Option (List (String × α))

/-- Modelled from the spec: Adam construction with the fixed defaults
beta1=0.9, beta2=0.999, eps=1e-7, step counter 0 and no moment state yet. -/
def Adam.init {α : Type} [Field α] (lr : α) : Adam α :=
  { lr := lr, beta1 := 9 / 10, beta2 := 999 / 1000, eps := 1 / 10000000,
    iter := 0, m := none, v := none }

/-- Modelled from the spec: `update(params, grads)` (spec section 4.7): on
first call initialize zero moments shaped like the parameters; increment the
shared step counter once per call; compute
`lr_t = lr * sqrt(1 - beta2^t) / (1 - beta1^t)`; then for every parameter key
present in both mappings update `m <- m + (1-beta1)(g-m)`,
`v <- v + (1-beta2)(g^2-v)` and `param <- param - lr_t * m / (sqrt v + eps)`.
Keys without a gradient are left untouched. -/
def Adam.update {α : Type} [Field α] (s : α → α) (a : Adam α)
    (params grads : List (String × α)) : Adam α × List (String × α) :=
  let m0 := match a.m with
    | none => params.map (fun p => (p.1, (0 : α)))
    | some m => m
  let v0 := match a.v with
    | none => params.map (fun p => (p.1, (0 : α)))
    | some v => v
  let iter2 := a.iter + 1
  let lr_t := a.lr * s (1 - a.beta2 ^ iter2) / (1 - a.beta1 ^ iter2)
  let step := params.map (fun p =>
    match alookup grads p.1 with
    | none => (p.1, ((alookup m0 p.1).getD 0, (alookup v0 p.1).getD 0, p.2))
    | some g =>
      let mN := (alookup m0 p.1).getD 0 + (1 - a.beta1) * (g - (alookup m0 p.1).getD 0)
      let vN := (alookup v0 p.1).getD 0 + (1 - a.beta2) * (g * g - (alookup v0 p.1).getD 0)
      (p.1, (mN, vN, p.2 - lr_t * mN / (s vN + a.eps))))
  ({ a with iter := iter2,
            m := some (step.map (fun q => (q.1, q.2.1))),
            v := some (step.map (fun q => (q.1, q.2.2.1))) },
   step.map (fun q => (q.1, q.2.2.2)))

/-- Claim C6 (amended): from zero moments and step counter 0, one update with
gradient g changes the parameter by exactly
`-lr * sqrt(1-beta2) * g / (sqrt(1-beta2) * |g| + eps)` — approximately
`-lr * sign(g)`, NOT `-lr * sign(g) * (1-beta1)/sqrt(1-beta2)` as the original
claim's formula says (the bias-correction factor `sqrt(1-beta2^t)/(1-beta1^t)`
of the update rule cancels the `(1-beta1)` and `sqrt(1-beta2)` factors of the
first-step moments).  The shared step counter is incremented once per update
call, also with several parameter keys. -/
theorem C6_adam_first_step (lr g p : ℝ) :
    ((Adam.init lr).update Real.sqrt [("W", p)] [("W", g)]).1.iter = 1 ∧
    alookup ((Adam.init lr).update Real.sqrt [("W", p)] [("W", g)]).2 "W" =
      some (p - lr * Real.sqrt (1 - 999/1000) * g /
        (Real.sqrt (1 - 999/1000) * |g| + 1/10000000)) ∧
    ((Adam.init lr).update Real.sqrt
      [("a", p), ("b", p)] [("a", g), ("b", g)]).1.iter = 1 := by
  refine ⟨rfl, ?_, rfl⟩
  simp [Adam.update, Adam.init, alookup]
  have hsq : Real.sqrt ((1 - 999/1000) * (g * g)) =
      Real.sqrt (1 - 999/1000) * |g| := by
    rw [show (g * g : ℝ) = g^2 by ring, Real.sqrt_mul (by norm_num) (g^2),
      Real.sqrt_sq_eq_abs]
  rw [hsq]
  congr 1
  field_simp
  ring

/-- Claim C6, counterexample: at lr=1, g=1, p=0 the actual one-step parameter
change is `-sqrt(1-beta2)/(sqrt(1-beta2)+eps)`, about -1, while the claimed
formula `-lr*sign(g)*(1-beta1)/sqrt(1-beta2)` is about -3.162; they differ by
more than 2, far beyond anything the eps floor could account for. -/
theorem C6_counterexample :
    |(alookup (((Adam.init (1:ℝ)).update Real.sqrt [("W", 0)] [("W", 1)]).2)
        "W").getD 0
      - (-((1 - 9/10) / Real.sqrt (1 - 999/1000)))| > 2 := by
  have hd0 : (0:ℝ) < Real.sqrt (1 - 999/1000) + 1/10000000 := by positivity
  have hval : (alookup (((Adam.init (1:ℝ)).update Real.sqrt [("W", 0)] [("W", 1)]).2)
      "W").getD 0
      = -(Real.sqrt (1 - 999/1000) / (Real.sqrt (1 - 999/1000) + 1/10000000)) := by
    simp [Adam.update, Adam.init, alookup]
    field_simp
    ring
  rw [hval]
  have hs0 : 0 < Real.sqrt (1 - 999/1000) := by
    rw [show (1:ℝ) - 999/1000 = 1/1000 by norm_num]
    exact Real.sqrt_pos.mpr (by norm_num)
  have hs31 : Real.sqrt (1 - 999/1000) < 1/31 := by
    rw [show (1:ℝ) - 999/1000 = 1/1000 by norm_num,
      show (1:ℝ)/31 = Real.sqrt ((1/31)^2) by rw [Real.sqrt_sq (by norm_num)]]
    exact Real.sqrt_lt_sqrt (by norm_num) (by norm_num)
  have hfrac : Real.sqrt (1 - 999/1000) /
      (Real.sqrt (1 - 999/1000) + 1/10000000) < 1 := by
    rw [div_lt_one hd0]
    linarith
  have hfrac0 : 0 ≤ Real.sqrt (1 - 999/1000) /
      (Real.sqrt (1 - 999/1000) + 1/10000000) := by positivity
  have hbig : (3.1 : ℝ) < (1 - 9/10) / Real.sqrt (1 - 999/1000) := by
    rw [lt_div_iff₀ hs0]
    nlinarith
  have hpos : 0 < -(Real.sqrt (1 - 999/1000) /
        (Real.sqrt (1 - 999/1000) + 1/10000000))
      - (-((1 - 9/10) / Real.sqrt (1 - 999/1000))) := by linarith
  rw [abs_of_pos hpos]
  linarith

/-! ## Parameter re-binding on load (HW#2.py lines 147-155)

Python variables and dict entries bind references to numpy arrays; the
"shared references, not copies" part of the load contract is about reference
identity, so this model makes references explicit: the heap is a list of
tensors and a reference is an index into it.  `pickle.load` (external input)
yields fresh tensor objects, which the model allocates onto the heap one by
one exactly as the source's first loop stores them into `self.params`; the
second loop then re-binds each parameterized layer's W/b reference from the
parameter mapping. -/

/-- The reference structure of the network relevant to `load_params`: the
name-keyed parameter mapping and the W/b references held by the Convolution
layer and the three Affine layers. -/
structure RefNet where
  params : List (String × ℕ)
  conv1W : ℕ
  conv1b : ℕ
  affine1W : ℕ
  affine1b : ℕ
  affine2W : ℕ
  affine2b : ℕ
  affine3W : ℕ
  affine3b : ℕ
deriving DecidableEq

/-- Python dict assignment `d[k] = v`: overwrite in place if the key exists,
else append (insertion order preserved). -/
def assocSet {α : Type} : List (String × α) → String → α → List (String × α)
  | [], k, v => [(k, v)]
  | (k0, v0) :: r, k, v =>
    if k0 = k then (k0, v) :: r else (k0, v0) :: assocSet r k v

theorem alookup_assocSet_self {α : Type} (ps : List (String × α)) (k : String)
    (v : α) : alookup (assocSet ps k v) k = some v := by
  induction ps with
  | nil => simp [assocSet, alookup]
  | cons p r ih =>
    by_cases h : p.1 = k
    · simp [assocSet, alookup, h]
    · simp [assocSet, alookup, h, ih]

theorem alookup_assocSet_ne {α : Type} (ps : List (String × α)) (k k' : String)
    (v : α) (h : k' ≠ k) : alookup (assocSet ps k' v) k = alookup ps k := by
  induction ps with
  | nil => simp [assocSet, alookup, h]
  | cons p r ih =>
    by_cases h0 : p.1 = k'
    · simp [assocSet, alookup, h0, h]
    · simp only [assocSet, if_neg h0, alookup]
      by_cases h1 : p.1 = k
      · simp [h1]
      · simp [h1, ih]

/-- `load_params` (HW#2.py lines 147-155): the first loop walks the loaded
mapping, binding each name in `self.params` to the freshly allocated tensor;
the second loop re-binds, for i in 1..4, layer ('Conv1','Affine1','Affine2',
'Affine3')[i-1]'s W and b to `self.params['W'+str(i)]` and
`self.params['b'+str(i)]` — copying the reference, not the tensor. -/
def load_params {τ : Type} (net : RefNet) (heap : List τ)
    (loaded : List (String × τ)) : RefNet × List τ :=
  let step := loaded.foldl
    (fun (acc : List (String × ℕ) × List τ) kv =>
      (assocSet acc.1 kv.1 acc.2.length, acc.2 ++ [kv.2]))
    (net.params, heap)
  let ref := fun k => (alookup step.1 k).getD 0
  ({ params := step.1,
     conv1W := ref "W1", conv1b := ref "b1",
     affine1W := ref "W2", affine1b := ref "b2",
     affine2W := ref "W3", affine2b := ref "b3",
     affine3W := ref "W4", affine3b := ref "b4" }, step.2)

/-- Claim C9: after `load_params` on a save-file holding the eight tensors
under keys W1..b4, the flat parameter mapping binds each key to the freshly
loaded tensor, and each of the four parameterized layers (Conv1, Affine1,
Affine2, Affine3) has its W and b re-bound to exactly the reference stored in
`params['W'+i]` / `params['b'+i]` — the same reference, not a copy — so
subsequent forwards read the loaded values. -/
theorem C9_load_params_binding {τ : Type} (net : RefNet) (heap : List τ)
    (w1 b1 w2 b2 w3 b3 w4 b4 : τ) :
    let r := load_params net heap
      [("W1", w1), ("b1", b1), ("W2", w2), ("b2", b2),
       ("W3", w3), ("b3", b3), ("W4", w4), ("b4", b4)]
    (alookup r.1.params "W1" = some r.1.conv1W ∧ r.2[r.1.conv1W]? = some w1) ∧
    (alookup r.1.params "b1" = some r.1.conv1b ∧ r.2[r.1.conv1b]? = some b1) ∧
    (alookup r.1.params "W2" = some r.1.affine1W ∧ r.2[r.1.affine1W]? = some w2) ∧
    (alookup r.1.params "b2" = some r.1.affine1b ∧ r.2[r.1.affine1b]? = some b2) ∧
    (alookup r.1.params "W3" = some r.1.affine2W ∧ r.2[r.1.affine2W]? = some w3) ∧
    (alookup r.1.params "b3" = some r.1.affine2b ∧ r.2[r.1.affine2b]? = some b3) ∧
    (alookup r.1.params "W4" = some r.1.affine3W ∧ r.2[r.1.affine3W]? = some w4) ∧
    (alookup r.1.params "b4" = some r.1.affine3b ∧ r.2[r.1.affine3b]? = some b4) := by
  intro r
  refine ⟨⟨?_, ?_⟩, ⟨?_, ?_⟩, ⟨?_, ?_⟩, ⟨?_, ?_⟩, ⟨?_, ?_⟩, ⟨?_, ?_⟩, ⟨?_, ?_⟩,
    ⟨?_, ?_⟩⟩ <;>
  · rw [show r = load_params net heap
      [("W1", w1), ("b1", b1), ("W2", w2), ("b2", b2),
       ("W3", w3), ("b3", b3), ("W4", w4), ("b4", b4)] from rfl]
    simp only [load_params, List.foldl_cons, List.foldl_nil, List.length_append,
      List.length_cons, List.length_nil]
    simp [alookup_assocSet_self, alookup_assocSet_ne, List.append_assoc]
    try ring_nf
    try simp [List.getElem_append_right, Nat.add_sub_cancel, Nat.sub_self]
    try rfl
